import Mathlib

/-!
Verification of the episode-detection code in `heatwave.py` and `coldwave.py`
(Heatwaves repository).  The Python functions are embedded shallowly:

* `hwStep` / `groupEpisodes` embed the grouping loop of `year_stn_stats`
  (heatwave.py lines 35-49, coldwave.py lines 49-64): crossing-day indices are
  folded into a running episode buffer, bridging single-day gaps.
* `crossingIdx` embeds the crossing-index extraction
  (`list(df_ys[df_ys >= hw_th].index)` resp. `<= hw_th`), with indices taken
  as the 0-based positions inside the station-year slice.
* `year_stn_stats_hw` / `year_stn_stats_cw` embed the two statistics
  functions; Python's `max` of a possibly-empty list is modelled by
  `listMax?`, so the result is an `Option` (`none` = the `ValueError` Python
  would raise).
* `process_df_hw` / `process_df_cw` embed the per-cell content of
  `process_df`: one stats tuple per station-year slice, with the aggregator's
  mask `max_durs[max_durs < hw_min_days] = 0` applied to the max-duration
  table (`zeroShortMax`).
* `alignThreshold` embeds coldwave.py lines 135-136 (the leap-day drop of the
  per-day threshold series), `selectYears_hw` / `selectYears_cw` embed the
  year enumeration of the two `process_df` variants.
-/

/-- One iteration of the grouping loop of `year_stn_stats` (heatwave.py
lines 37-48 = coldwave.py lines 51-63).  The state is the pair
`(hws, hw)` of closed episodes and the current episode buffer. -/
def hwStep (s : List (List Int) × List Int) (day : Int) : List (List Int) × List Int :=
  match s with
  | (hws, hw) =>
    match hw.getLast? with
    | none => (hws, [day])
    | some last =>
      if day - last = 1 then (hws, hw ++ [day])
      else if day - last = 2 then (hws, hw ++ [day - 1, day])
      else (hws ++ [hw], [day])

/-- The full grouping loop over the crossing-index list, including the final
`hws.append(hw)` after the loop (heatwave.py line 49, coldwave.py line 64). -/
def groupEpisodes (hd_idx : List Int) : List (List Int) :=
  let s := hd_idx.foldl hwStep ([], [])
  s.1 ++ [s.2]

/-- The crossing-index extraction: 0-based positions of the values of the
station-year slice that satisfy the comparison `meets` (heatwave.py line 34:
`meets v = (hw_th ≤ v)`; coldwave.py line 46: `meets v = (v ≤ hw_th)`). -/
def crossingIdx (vals : List Int) (meets : Int → Bool) : List Int :=
  ((List.range vals.length).filter (fun i => meets (vals.getD i 0))).map Int.ofNat

/-- The lengths of all episodes produced by the grouping loop
(`durations = [len(hw) for hw in hws]`). -/
def durationsOf (hd_idx : List Int) : List Nat :=
  (groupEpisodes hd_idx).map List.length

/-- Python's `max` over a list: raises (`none`) on the empty list, otherwise
the maximum of the elements. -/
def listMax? : List Nat → Option Nat
  | [] => none
  | x :: xs => some (xs.foldl Nat.max x)

/-- `year_stn_stats` of heatwave.py: crossing test `df_ys >= hw_th`,
`n_days = sum(durations)` (line 51).  Returns
`(n_days, n_hws, max_dur, n_days_hw)`, `none` if `max` is taken over an
empty list. -/
def year_stn_stats_hw (df_ys : List Int) (hw_th : Int) (minDays : Nat) :
    Option (Nat × Nat × Nat × Nat) :=
  let hd_idx := crossingIdx df_ys (fun v => decide (hw_th ≤ v))
  let durations := durationsOf hd_idx
  (listMax? durations).map (fun max_dur =>
    (durations.sum,
     (durations.filter (fun dd => decide (minDays ≤ dd))).length,
     max_dur,
     (durations.filter (fun dd => decide (minDays ≤ dd))).sum))

/-- `year_stn_stats` of coldwave.py (fixed-threshold branch): crossing test
`df_ys <= hw_th`, `n_days = len(hd_idx)` (line 68). -/
def year_stn_stats_cw (df_ys : List Int) (hw_th : Int) (minDays : Nat) :
    Option (Nat × Nat × Nat × Nat) :=
  let hd_idx := crossingIdx df_ys (fun v => decide (v ≤ hw_th))
  let durations := durationsOf hd_idx
  (listMax? durations).map (fun max_dur =>
    (hd_idx.length,
     (durations.filter (fun dd => decide (minDays ≤ dd))).length,
     max_dur,
     (durations.filter (fun dd => decide (minDays ≤ dd))).sum))

/-- The explicit value of `year_stn_stats_hw` (used to relate the `Option`
result to its components). -/
def statsHWt (df_ys : List Int) (hw_th : Int) (minDays : Nat) : Nat × Nat × Nat × Nat :=
  let durations := durationsOf (crossingIdx df_ys (fun v => decide (hw_th ≤ v)))
  (durations.sum,
   (durations.filter (fun dd => decide (minDays ≤ dd))).length,
   durations.foldl Nat.max 0,
   (durations.filter (fun dd => decide (minDays ≤ dd))).sum)

/-- The explicit value of `year_stn_stats_cw`. -/
def statsCWt (df_ys : List Int) (hw_th : Int) (minDays : Nat) : Nat × Nat × Nat × Nat :=
  let hd_idx := crossingIdx df_ys (fun v => decide (v ≤ hw_th))
  let durations := durationsOf hd_idx
  (hd_idx.length,
   (durations.filter (fun dd => decide (minDays ≤ dd))).length,
   durations.foldl Nat.max 0,
   (durations.filter (fun dd => decide (minDays ≤ dd))).sum)

/-- The hardcoded minimum episode duration of `process_df`
(`hw_min_days = 3` in both files). -/
def hw_min_days : Nat := 3

/-- The aggregator's post-processing mask on the max-duration table:
`max_durs[max_durs < hw_min_days] = 0` (heatwave.py line 104,
coldwave.py line 150), applied cell-wise. -/
def zeroShortMax (minDays : Nat) (t : List Nat) : List Nat :=
  t.map (fun v => if v < minDays then 0 else v)

/-- Runs a per-slice statistics function over every station-year slice,
propagating a failure of any slice (Python would raise out of the loop). -/
def statsTable (f : List Int → Option (Nat × Nat × Nat × Nat)) :
    List (List Int) → Option (List (Nat × Nat × Nat × Nat))
  | [] => some []
  | c :: cs =>
    match f c, statsTable f cs with
    | some s, some r => some (s :: r)
    | _, _ => none

/-- The per-cell content of `process_df` in heatwave.py: the four tables,
flattened to one list of cells each (one entry per station-year slice), with
the `max_durs < hw_min_days` mask applied to the max-duration table. -/
def process_df_hw (cols : List (List Int)) (hw_th : Int) :
    Option (List Nat × List Nat × List Nat × List Nat) :=
  (statsTable (fun v => year_stn_stats_hw v hw_th hw_min_days) cols).map (fun stats =>
    (stats.map (fun s => s.1),
     stats.map (fun s => s.2.1),
     zeroShortMax hw_min_days (stats.map (fun s => s.2.2.1)),
     stats.map (fun s => s.2.2.2)))

/-- The per-cell content of `process_df` in coldwave.py (fixed threshold). -/
def process_df_cw (cols : List (List Int)) (hw_th : Int) :
    Option (List Nat × List Nat × List Nat × List Nat) :=
  (statsTable (fun v => year_stn_stats_cw v hw_th hw_min_days) cols).map (fun stats =>
    (stats.map (fun s => s.1),
     stats.map (fun s => s.2.1),
     zeroShortMax hw_min_days (stats.map (fun s => s.2.2.1)),
     stats.map (fun s => s.2.2.2)))

/-- coldwave.py lines 135-136: if the per-day threshold series is longer than
the station-year slice, drop the entry at label 151 (the Feb-29 row; pandas
`drop(labels=[151])` raises, modelled as `none`, when the series has no
label 151, i.e. fewer than 152 entries).  No other reconciliation happens:
a series that is not longer is passed through unchanged. -/
def alignThreshold (stn_hw_th : List Int) (n_days : Nat) : Option (List Int) :=
  if n_days < stn_hw_th.length then
    if 151 < stn_hw_th.length then some (stn_hw_th.eraseIdx 151) else none
  else some stn_hw_th

/-- pandas `Series.unique`: distinct values in order of first occurrence. -/
def uniqueFirst (l : List String) : List String :=
  l.foldl (fun acc y => if y ∈ acc then acc else acc ++ [y]) []

/-- heatwave.py line 83: `years = df["Aasta"].unique()` — no filtering. -/
def selectYears_hw (years : List String) : List String :=
  uniqueFirst years

/-- coldwave.py lines 121-122: `years = df["Aasta"].unique()` followed by
`years = [y for y in years if len(y) > 4]`. -/
def selectYears_cw (years : List String) : List String :=
  (uniqueFirst years).filter (fun y => 4 < y.length)

/-- Modelled from the spec (§4.2 RunDetector, the case analysis quoted by the
claim): `specGroup last cur rest` continues the fold with current episode
`cur` whose last index is `last`; the three specified cases are
`d - last = 1` (append `d`), `d - last = 2` (append the bridged `d - 1` and
`d`), and `d - last > 2` (close the episode, start a new one at `d`).  The
spec describes only ascending crossing lists, so the remaining case
(`d ≤ last`) is left degenerate: the fold stops. -/
def specGroup : Int → List Int → List Int → List (List Int)
  | _, cur, [] => [cur]
  | last, cur, d :: rest =>
    if d - last = 1 then specGroup d (cur ++ [d]) rest
    else if d - last = 2 then specGroup d (cur ++ [d - 1, d]) rest
    else if 2 < d - last then cur :: specGroup d [d] rest
    else [cur]

/-- Modelled from the spec (§4.2): the first crossing index starts the
current episode; an empty crossing list yields the single empty episode the
spec notes as the degenerate case. -/
def specGroupEpisodes : List Int → List (List Int)
  | [] => [[]]
  | d :: rest => specGroup d [d] rest

/-- An episode is a run of consecutive integers. -/
@[reducible] def isRun (e : List Int) : Prop :=
  List.Chain' (fun a b => b = a + 1) e

/-- Full separation between two episodes: every index of the first is at
least 3 below every index of the second. -/
@[reducible] def sepAll (e1 e2 : List Int) : Prop :=
  ∀ a ∈ e1, ∀ b ∈ e2, a + 3 ≤ b

/-- Well-formedness of one episode w.r.t. a crossing list `S`: non-empty,
a consecutive run, and both endpoints are crossing days. -/
@[reducible] def episodeOK (S : List Int) (e : List Int) : Prop :=
  e ≠ [] ∧ isRun e ∧ (∀ h ∈ e.head?, h ∈ S) ∧ (∀ h ∈ e.getLast?, h ∈ S)

lemma getLastq_mem {l : List Int} {a : Int} (h : l.getLast? = some a) : a ∈ l :=
  List.mem_of_mem_getLast? (by simp [h, Option.mem_def])

lemma headq_mem {l : List Int} {a : Int} (h : l.head? = some a) : a ∈ l :=
  List.mem_of_mem_head? (by simp [h, Option.mem_def])

lemma headq_append_ne_nil (l₁ l₂ : List Int) (h : l₁ ≠ []) :
    (l₁ ++ l₂).head? = l₁.head? := by
  cases l₁ with
  | nil => exact absurd rfl h
  | cons x xs => rfl

lemma run_head_le :
    ∀ (e : List Int), isRun e → ∀ h a, e.head? = some h → a ∈ e → h ≤ a := by
  intro e
  induction e with
  | nil =>
    intro _ h a hh _
    simp at hh
  | cons x xs ih =>
    intro hrun h a hh ha
    have hx : h = x := by simpa using hh.symm
    rcases List.mem_cons.mp ha with rfl | ha'
    · omega
    · cases xs with
      | nil => simp at ha'
      | cons y ys =>
        have h1 : y = x + 1 := (List.chain'_cons.mp hrun).1
        have h2 : isRun (y :: ys) := (List.chain'_cons.mp hrun).2
        have h3 := ih h2 y a rfl ha'
        omega

lemma run_le_last :
    ∀ (e : List Int), isRun e → ∀ l a, e.getLast? = some l → a ∈ e → a ≤ l := by
  intro e
  induction e with
  | nil =>
    intro _ l a hl _
    simp at hl
  | cons x xs ih =>
    intro hrun l a hl ha
    cases xs with
    | nil =>
      have hx : l = x := by simpa using hl.symm
      have ha' : a = x := by simpa using ha
      omega
    | cons y ys =>
      have h1 : y = x + 1 := (List.chain'_cons.mp hrun).1
      have h2 : isRun (y :: ys) := (List.chain'_cons.mp hrun).2
      have hl' : (y :: ys).getLast? = some l := by
        simpa [List.getLast?_cons_cons] using hl
      rcases List.mem_cons.mp ha with rfl | ha'
      · have hy := ih h2 l y hl' (List.mem_cons_self _ _)
        omega
      · exact ih h2 l a hl' ha'

lemma crossingIdx_chain' (vals : List Int) (meets : Int → Bool) :
    List.Chain' (· < ·) (crossingIdx vals meets) := by
  have h1 : List.Pairwise (· < ·) (List.range vals.length) :=
    List.pairwise_lt_range _
  have h2 := h1.filter (fun i => meets (vals.getD i 0))
  have h3 : List.Pairwise (fun a b : Nat => Int.ofNat a < Int.ofNat b)
      ((List.range vals.length).filter fun i => meets (vals.getD i 0)) :=
    h2.imp (fun h => Int.ofNat_lt.mpr h)
  have h4 : List.Pairwise (· < ·) (crossingIdx vals meets) := by
    unfold crossingIdx
    rw [List.pairwise_map]
    exact h3
  exact h4.chain'

lemma groupEpisodes_ne_nil (l : List Int) : groupEpisodes l ≠ [] := by
  simp [groupEpisodes]

lemma durationsOf_ne_nil (l : List Int) : durationsOf l ≠ [] := by
  intro h
  exact groupEpisodes_ne_nil l (by simpa [durationsOf] using h)

lemma listMax?_of_ne_nil (l : List Nat) (h : l ≠ []) :
    listMax? l = some (l.foldl Nat.max 0) := by
  cases l with
  | nil => exact absurd rfl h
  | cons x xs => simp [listMax?, List.foldl_cons, Nat.zero_max]

lemma year_stn_stats_hw_eq (df_ys : List Int) (hw_th : Int) (m : Nat) :
    year_stn_stats_hw df_ys hw_th m = some (statsHWt df_ys hw_th m) := by
  simp only [year_stn_stats_hw, statsHWt]
  rw [listMax?_of_ne_nil _ (durationsOf_ne_nil _)]
  rfl

lemma year_stn_stats_cw_eq (df_ys : List Int) (hw_th : Int) (m : Nat) :
    year_stn_stats_cw df_ys hw_th m = some (statsCWt df_ys hw_th m) := by
  simp only [year_stn_stats_cw, statsCWt]
  rw [listMax?_of_ne_nil _ (durationsOf_ne_nil _)]
  rfl

lemma fold_eq_specGroup :
    ∀ (rest : List Int) (hws : List (List Int)) (cur : List Int) (last : Int),
      cur.getLast? = some last →
      List.Chain' (· < ·) (last :: rest) →
      (rest.foldl hwStep (hws, cur)).1 ++ [(rest.foldl hwStep (hws, cur)).2] =
        hws ++ specGroup last cur rest := by
  intro rest
  induction rest with
  | nil =>
    intro hws cur last _ _
    simp [specGroup]
  | cons d rest ih =>
    intro hws cur last h1 h2
    have hld : last < d := (List.chain'_cons.mp h2).1
    have h2' : List.Chain' (· < ·) (d :: rest) := (List.chain'_cons.mp h2).2
    rw [List.foldl_cons]
    by_cases hA : d - last = 1
    · have hstep : hwStep (hws, cur) d = (hws, cur ++ [d]) := by
        simp [hwStep, h1, hA]
      rw [hstep, ih hws (cur ++ [d]) d (List.getLast?_concat _) h2']
      have hs : specGroup last cur (d :: rest) = specGroup d (cur ++ [d]) rest := by
        simp only [specGroup]
        rw [if_pos hA]
      rw [hs]
    · by_cases hB : d - last = 2
      · have hstep : hwStep (hws, cur) d = (hws, cur ++ [d - 1, d]) := by
          simp [hwStep, h1, hA, hB]
        have hg : (cur ++ [d - 1, d]).getLast? = some d := by
          rw [show cur ++ [d - 1, d] = (cur ++ [d - 1]) ++ [d] by simp]
          exact List.getLast?_concat _
        rw [hstep, ih hws (cur ++ [d - 1, d]) d hg h2']
        have hs : specGroup last cur (d :: rest) = specGroup d (cur ++ [d - 1, d]) rest := by
          simp only [specGroup]
          rw [if_neg hA, if_pos hB]
        rw [hs]
      · have hC : 2 < d - last := by omega
        have hstep : hwStep (hws, cur) d = (hws ++ [cur], [d]) := by
          simp [hwStep, h1, hA, hB]
        rw [hstep, ih (hws ++ [cur]) [d] d rfl h2']
        have hs : specGroup last cur (d :: rest) = cur :: specGroup d [d] rest := by
          simp only [specGroup]
          rw [if_neg hA, if_neg hB, if_pos hC]
        rw [hs]
        simp

lemma foldInv (S : List Int) :
    ∀ (l : List Int) (hws : List (List Int)) (hw : List Int) (last : Int),
      hw.getLast? = some last →
      List.Chain' (· < ·) (last :: l) →
      (∀ x ∈ l, x ∈ S) →
      (∀ e ∈ hws ++ [hw], episodeOK S e) →
      List.Pairwise sepAll (hws ++ [hw]) →
      (∀ e ∈ (l.foldl hwStep (hws, hw)).1 ++ [(l.foldl hwStep (hws, hw)).2], episodeOK S e) ∧
        List.Pairwise sepAll ((l.foldl hwStep (hws, hw)).1 ++ [(l.foldl hwStep (hws, hw)).2]) := by
  intro l
  induction l with
  | nil =>
    intro hws hw last h1 h2 h3 h4 h5
    exact ⟨h4, h5⟩
  | cons d rest ih =>
    intro hws hw last h1 h2 h3 h4 h5
    have hld : last < d := (List.chain'_cons.mp h2).1
    have h2' : List.Chain' (· < ·) (d :: rest) := (List.chain'_cons.mp h2).2
    have h3' : ∀ x ∈ rest, x ∈ S := fun x hx => h3 x (List.mem_cons_of_mem _ hx)
    have hdS : d ∈ S := h3 d (List.mem_cons_self _ _)
    have hlastmem : last ∈ hw := getLastq_mem h1
    obtain ⟨hhwne, hhwrun, hhwhead, hhwlast⟩ := h4 hw (by simp)
    rw [List.foldl_cons]
    by_cases hA : d - last = 1
    · have hstep : hwStep (hws, hw) d = (hws, hw ++ [d]) := by
        simp [hwStep, h1, hA]
      rw [hstep]
      have hOK : ∀ e ∈ hws ++ [hw ++ [d]], episodeOK S e := by
        intro e he
        rcases List.mem_append.mp he with he1 | he2
        · exact h4 e (List.mem_append.mpr (Or.inl he1))
        · have heq : e = hw ++ [d] := by simpa using he2
          subst heq
          refine ⟨by simp, ?_, ?_, ?_⟩
          · rw [isRun, List.chain'_append]
            refine ⟨hhwrun, List.chain'_singleton _, ?_⟩
            intro x hx y hy
            have hx' : x = last := by
              rw [h1] at hx
              simpa [Option.mem_def] using hx.symm
            have hy' : y = d := by simpa [Option.mem_def] using hy.symm
            subst hx'
            subst hy'
            omega
          · intro h hh
            rw [headq_append_ne_nil _ _ hhwne] at hh
            exact hhwhead h hh
          · intro h hh
            rw [List.getLast?_concat] at hh
            have : h = d := by simpa [Option.mem_def] using hh.symm
            subst this
            exact hdS
      have hPW : List.Pairwise sepAll (hws ++ [hw ++ [d]]) := by
        rw [List.pairwise_append] at h5 ⊢
        obtain ⟨p1, _, p3⟩ := h5
        refine ⟨p1, List.pairwise_singleton _ _, ?_⟩
        intro a ha b hb
        have hb' : b = hw ++ [d] := by simpa using hb
        subst hb'
        have hsep : sepAll a hw := p3 a ha hw (by simp)
        intro x hx y hy
        rcases List.mem_append.mp hy with hy1 | hy2
        · exact hsep x hx y hy1
        · have : y = d := by simpa using hy2
          subst this
          have := hsep x hx last hlastmem
          omega
      exact ih hws (hw ++ [d]) d (List.getLast?_concat _) h2' h3' hOK hPW
    · by_cases hB : d - last = 2
      · have hstep : hwStep (hws, hw) d = (hws, hw ++ [d - 1, d]) := by
          simp [hwStep, h1, hA, hB]
        rw [hstep]
        have hg : (hw ++ [d - 1, d]).getLast? = some d := by
          rw [show hw ++ [d - 1, d] = (hw ++ [d - 1]) ++ [d] by simp]
          exact List.getLast?_concat _
        have hOK : ∀ e ∈ hws ++ [hw ++ [d - 1, d]], episodeOK S e := by
          intro e he
          rcases List.mem_append.mp he with he1 | he2
          · exact h4 e (List.mem_append.mpr (Or.inl he1))
          · have heq : e = hw ++ [d - 1, d] := by simpa using he2
            subst heq
            refine ⟨by simp, ?_, ?_, ?_⟩
            · rw [isRun, List.chain'_append]
              refine ⟨hhwrun, ?_, ?_⟩
              · rw [List.chain'_cons]
                exact ⟨by omega, List.chain'_singleton _⟩
              · intro x hx y hy
                have hx' : x = last := by
                  rw [h1] at hx
                  simpa [Option.mem_def] using hx.symm
                have hy' : y = d - 1 := by simpa [Option.mem_def] using hy.symm
                subst hx'
                subst hy'
                omega
            · intro h hh
              rw [headq_append_ne_nil _ _ hhwne] at hh
              exact hhwhead h hh
            · intro h hh
              rw [hg] at hh
              have : h = d := by simpa [Option.mem_def] using hh.symm
              subst this
              exact hdS
        have hPW : List.Pairwise sepAll (hws ++ [hw ++ [d - 1, d]]) := by
          rw [List.pairwise_append] at h5 ⊢
          obtain ⟨p1, _, p3⟩ := h5
          refine ⟨p1, List.pairwise_singleton _ _, ?_⟩
          intro a ha b hb
          have hb' : b = hw ++ [d - 1, d] := by simpa using hb
          subst hb'
          have hsep : sepAll a hw := p3 a ha hw (by simp)
          intro x hx y hy
          have hxl := hsep x hx last hlastmem
          rcases List.mem_append.mp hy with hy1 | hy2
          · exact hsep x hx y hy1
          · have : y = d - 1 ∨ y = d := by simpa using hy2
            rcases this with rfl | rfl <;> omega
        exact ih hws (hw ++ [d - 1, d]) d hg h2' h3' hOK hPW
      · have hC : last + 3 ≤ d := by omega
        have hstep : hwStep (hws, hw) d = (hws ++ [hw], [d]) := by
          simp [hwStep, h1, hA, hB]
        rw [hstep]
        have hOK : ∀ e ∈ (hws ++ [hw]) ++ [[d]], episodeOK S e := by
          intro e he
          rcases List.mem_append.mp he with he1 | he2
          · exact h4 e he1
          · have heq : e = [d] := by simpa using he2
            subst heq
            refine ⟨by simp, List.chain'_singleton _, ?_, ?_⟩
            · intro h hh
              have : h = d := by simpa [Option.mem_def] using hh.symm
              subst this
              exact hdS
            · intro h hh
              have : h = d := by simpa [Option.mem_def, List.getLast?] using hh.symm
              subst this
              exact hdS
        have hPW : List.Pairwise sepAll ((hws ++ [hw]) ++ [[d]]) := by
          rw [List.pairwise_append]
          refine ⟨h5, List.pairwise_singleton _ _, ?_⟩
          intro a ha b hb
          have hb' : b = [d] := by simpa using hb
          subst hb'
          intro x hx y hy
          have hy' : y = d := by simpa using hy
          subst hy'
          rcases List.mem_append.mp ha with ha1 | ha2
          · rw [List.pairwise_append] at h5
            have hsep : sepAll a hw := h5.2.2 a ha1 hw (by simp)
            have := hsep x hx last hlastmem
            omega
          · have haw : a = hw := by simpa using ha2
            have hxw : x ∈ hw := haw ▸ hx
            have := run_le_last hw hhwrun last x h1 hxw
            omega
        exact ih (hws ++ [hw]) [d] d rfl h2' h3' hOK hPW

lemma groupEpisodes_inv (l : List Int) (hl : List.Chain' (· < ·) l) :
    (∀ e ∈ groupEpisodes l, e ≠ [] → episodeOK l e) ∧
      List.Pairwise sepAll (groupEpisodes l) := by
  cases l with
  | nil =>
    constructor
    · intro e he hne
      have : e = [] := by simpa [groupEpisodes] using he
      exact absurd this hne
    · have : groupEpisodes [] = [[]] := rfl
      rw [this]
      exact List.pairwise_singleton _ _
  | cons x xs =>
    have hge : groupEpisodes (x :: xs) =
        (xs.foldl hwStep ([], [x])).1 ++ [(xs.foldl hwStep ([], [x])).2] := rfl
    have hOK0 : ∀ e ∈ ([] : List (List Int)) ++ [[x]], episodeOK (x :: xs) e := by
      intro e he
      have : e = [x] := by simpa using he
      subst this
      refine ⟨by simp, List.chain'_singleton _, ?_, ?_⟩
      · intro h hh
        have : h = x := by simpa [Option.mem_def] using hh.symm
        subst this
        exact List.mem_cons_self _ _
      · intro h hh
        have : h = x := by simpa [Option.mem_def, List.getLast?] using hh.symm
        subst this
        exact List.mem_cons_self _ _
    have h := foldInv (x :: xs) xs [] [x] x rfl hl
      (fun y hy => List.mem_cons_of_mem _ hy) hOK0 (List.pairwise_singleton _ _)
    constructor
    · intro e he _
      rw [hge] at he
      exact h.1 e he
    · rw [hge]
      exact h.2

lemma statsTable_eq (f : List Int → Option (Nat × Nat × Nat × Nat))
    (g : List Int → Nat × Nat × Nat × Nat) (hfg : ∀ c, f c = some (g c)) :
    ∀ cols, statsTable f cols = some (cols.map g) := by
  intro cols
  induction cols with
  | nil => rfl
  | cons c cs ih =>
    simp only [statsTable, hfg c, ih, List.map_cons]

lemma getD_map {α β : Type} (f : α → β) :
    ∀ (l : List α) (i : Nat), i < l.length →
      ∀ (d₁ : α) (d₂ : β), (l.map f).getD i d₂ = f (l.getD i d₁) := by
  intro l
  induction l with
  | nil =>
    intro i hi
    simp at hi
  | cons x xs ih =>
    intro i hi d₁ d₂
    cases i with
    | zero => rfl
    | succ j =>
      have hj : j < xs.length := by simpa using hi
      simpa using ih j hj d₁ d₂

lemma filter_length_map (m : Nat) :
    ∀ (l : List (List Int)),
      (l.map List.length).filter (fun dd => decide (m ≤ dd)) =
        (l.filter (fun e => decide (m ≤ e.length))).map List.length := by
  intro l
  induction l with
  | nil => rfl
  | cons e l ih =>
    by_cases h : m ≤ e.length
    · simp [List.filter_cons, h, ih]
    · simp [List.filter_cons, h, ih]

lemma filter_ge_sublist (m1 m2 : Nat) (h : m1 ≤ m2) :
    ∀ (l : List Nat),
      List.Sublist (l.filter (fun dd => decide (m2 ≤ dd)))
        (l.filter (fun dd => decide (m1 ≤ dd))) := by
  intro l
  induction l with
  | nil => simp
  | cons x xs ih =>
    by_cases h2 : m2 ≤ x
    · have h1 : m1 ≤ x := le_trans h h2
      simp only [List.filter_cons, h1, h2, decide_True, if_true]
      exact ih.cons₂ x
    · by_cases h1 : m1 ≤ x
      · simp [List.filter_cons, h1, h2]
        exact ih.cons x
      · simp [List.filter_cons, h1, h2]
        exact ih

lemma sublist_sum_le {l₁ l₂ : List Nat} (h : List.Sublist l₁ l₂) : l₁.sum ≤ l₂.sum := by
  induction h with
  | slnil => exact le_refl _
  | cons x _ ih =>
    simp only [List.sum_cons]
    omega
  | cons₂ x _ ih =>
    simp only [List.sum_cons]
    omega

lemma mem_uniqueFirst_aux :
    ∀ (l acc : List String) (y : String),
      (y ∈ l.foldl (fun acc y => if y ∈ acc then acc else acc ++ [y]) acc) ↔
        (y ∈ acc ∨ y ∈ l) := by
  intro l
  induction l with
  | nil =>
    intro acc y
    simp
  | cons x xs ih =>
    intro acc y
    simp only [List.foldl_cons]
    by_cases hx : x ∈ acc
    · rw [if_pos hx]
      rw [ih]
      constructor
      · rintro (h | h)
        · exact Or.inl h
        · exact Or.inr (List.mem_cons_of_mem _ h)
      · rintro (h | h)
        · exact Or.inl h
        · rcases List.mem_cons.mp h with rfl | h'
          · exact Or.inl hx
          · exact Or.inr h'
    · rw [if_neg hx]
      rw [ih]
      constructor
      · rintro (h | h)
        · rcases List.mem_append.mp h with h' | h'
          · exact Or.inl h'
          · have : y = x := by simpa using h'
            subst this
            exact Or.inr (List.mem_cons_self _ _)
        · exact Or.inr (List.mem_cons_of_mem _ h)
      · rintro (h | h)
        · exact Or.inl (List.mem_append.mpr (Or.inl h))
        · rcases List.mem_cons.mp h with rfl | h'
          · exact Or.inl (List.mem_append.mpr (Or.inr (by simp)))
          · exact Or.inr h'

lemma mem_uniqueFirst (l : List String) (y : String) :
    y ∈ uniqueFirst l ↔ y ∈ l := by
  rw [uniqueFirst, mem_uniqueFirst_aux]
  simp

/-- C1: for every ascending crossing-index list, the episode-grouping fold of
`year_stn_stats` behaves exactly as the spec describes: the first crossing
index starts the current episode; for each subsequent index `d` with last
episode index `last`, `d - last = 1` appends `d`, `d - last = 2` appends the
bridged `d - 1` and `d`, `d - last > 2` closes the episode and starts a new
one at `d`; after the loop the final episode is pushed.  Bridging fires only
for exactly-one-day gaps, and a two-or-more-day gap always terminates the
episode. -/
theorem C1_grouping_fold_matches_spec (l : List Int) (hl : List.Chain' (· < ·) l) :
    groupEpisodes l = specGroupEpisodes l := by
  cases l with
  | nil => rfl
  | cons x xs =>
    have hge : groupEpisodes (x :: xs) =
        (xs.foldl hwStep ([], [x])).1 ++ [(xs.foldl hwStep ([], [x])).2] := rfl
    rw [hge, fold_eq_specGroup xs [] [x] x rfl hl]
    rfl

/-- Witness for C1 at the concrete ascending crossing list `[0, 1, 3, 6]`
(one contiguous step, one bridged gap, one episode break). -/
theorem C1_grouping_fold_matches_spec_witness :
    List.Chain' (· < ·) ([0, 1, 3, 6] : List Int) ∧
      groupEpisodes [0, 1, 3, 6] = specGroupEpisodes [0, 1, 3, 6] :=
  ⟨by norm_num [List.chain'_cons, List.chain'_singleton],
   C1_grouping_fold_matches_spec [0, 1, 3, 6]
     (by norm_num [List.chain'_cons, List.chain'_singleton])⟩

/-- C2: for every input series and threshold comparison, the episode list
produced by the detector is ascending and pairwise non-overlapping — every
index of an earlier episode is at least 3 below every index of a later
episode — and in particular for adjacent episodes the first index of the
later exceeds the last index of the earlier by at least 3, so no two
adjacent episodes could be merged by one more single-day bridging pass. -/
theorem C2_episodes_separated (vals : List Int) (meets : Int → Bool) :
    List.Pairwise sepAll (groupEpisodes (crossingIdx vals meets)) ∧
      List.Chain' (fun e1 e2 => ∀ a ∈ e1.getLast?, ∀ b ∈ e2.head?, a + 3 ≤ b)
        (groupEpisodes (crossingIdx vals meets)) := by
  have h := (groupEpisodes_inv _ (crossingIdx_chain' vals meets)).2
  refine ⟨h, ?_⟩
  have h2 : List.Pairwise (fun e1 e2 => ∀ a ∈ e1.getLast?, ∀ b ∈ e2.head?, a + 3 ≤ b)
      (groupEpisodes (crossingIdx vals meets)) := by
    refine h.imp ?_
    intro e1 e2 hsep a ha b hb
    exact hsep a (getLastq_mem (Option.mem_def.mp ha)) b (headq_mem (Option.mem_def.mp hb))
  exact h2.chain'

/-- C10: every non-empty episode produced by the grouping loop is an interval
of consecutive integers, its first and last index are members of the
crossing list, and a bridged (non-crossing) day can occur only strictly in
the interior — never as an episode's first or last day. -/
theorem C10_episode_structure (vals : List Int) (meets : Int → Bool) :
    ∀ e ∈ groupEpisodes (crossingIdx vals meets), e ≠ [] →
      isRun e ∧
      (∀ h ∈ e.head?, h ∈ crossingIdx vals meets) ∧
      (∀ h ∈ e.getLast?, h ∈ crossingIdx vals meets) ∧
      (∀ x ∈ e, x ∉ crossingIdx vals meets →
        (∀ h ∈ e.head?, x ≠ h) ∧ (∀ h ∈ e.getLast?, x ≠ h)) := by
  intro e he hne
  obtain ⟨_, hrun, hhead, hlast⟩ :=
    (groupEpisodes_inv _ (crossingIdx_chain' vals meets)).1 e he hne
  refine ⟨hrun, hhead, hlast, ?_⟩
  intro x _ hnx
  constructor
  · intro h hh hxe
    exact hnx (hxe ▸ hhead h hh)
  · intro h hh hxe
    exact hnx (hxe ▸ hlast h hh)

/-- Witness for C10: values `[31, 29, 31]`, heat threshold 30 — the crossing
list is `[0, 2]` and the single episode `[0, 1, 2]` bridges index 1. -/
theorem C10_episode_structure_witness :
    ([0, 1, 2] : List Int) ∈
        groupEpisodes (crossingIdx [31, 29, 31] (fun v => decide ((30 : Int) ≤ v))) ∧
      (isRun [0, 1, 2] ∧
        (∀ h ∈ ([0, 1, 2] : List Int).head?,
          h ∈ crossingIdx [31, 29, 31] (fun v => decide ((30 : Int) ≤ v))) ∧
        (∀ h ∈ ([0, 1, 2] : List Int).getLast?,
          h ∈ crossingIdx [31, 29, 31] (fun v => decide ((30 : Int) ≤ v))) ∧
        (∀ x ∈ ([0, 1, 2] : List Int),
          x ∉ crossingIdx [31, 29, 31] (fun v => decide ((30 : Int) ≤ v)) →
          (∀ h ∈ ([0, 1, 2] : List Int).head?, x ≠ h) ∧
            (∀ h ∈ ([0, 1, 2] : List Int).getLast?, x ≠ h))) :=
  ⟨by decide,
   C10_episode_structure [31, 29, 31] (fun v => decide ((30 : Int) ≤ v)) [0, 1, 2]
     (by decide) (by decide)⟩

/-- C6: for a zero-length station-year value sequence — and in general
whenever the crossing list is empty — both statistics functions return
exactly `(0, 0, 0, 0)` without raising any error (the empty-sequence `max`
is never actually taken: the duration list always has the final pushed
episode in it, so the result is always `some`). -/
theorem C6_empty_crossing_stats (vals : List Int) (th : Int) (m : Nat) (hm : 1 ≤ m) :
    (year_stn_stats_hw vals th m).isSome = true ∧
      (year_stn_stats_cw vals th m).isSome = true ∧
      (crossingIdx vals (fun v => decide (th ≤ v)) = [] →
        year_stn_stats_hw vals th m = some (0, 0, 0, 0)) ∧
      (crossingIdx vals (fun v => decide (v ≤ th)) = [] →
        year_stn_stats_cw vals th m = some (0, 0, 0, 0)) := by
  have hd : decide (m ≤ 0) = false := by
    simp only [decide_eq_false_iff_not]
    omega
  have hdur : durationsOf ([] : List Int) = [0] := rfl
  refine ⟨?_, ?_, ?_, ?_⟩
  · rw [year_stn_stats_hw_eq]
    rfl
  · rw [year_stn_stats_cw_eq]
    rfl
  · intro hcr
    rw [year_stn_stats_hw_eq]
    have hm0 : ¬m = 0 := by omega
    simp [statsHWt, hcr, hdur, List.filter_cons, hd, hm0]
  · intro hcr
    rw [year_stn_stats_cw_eq]
    have hm0 : ¬m = 0 := by omega
    simp [statsCWt, hcr, hdur, List.filter_cons, hd, hm0]

/-- Witness for C6 at the empty series with the fixed thresholds and
`hw_min_days = 3` of the two scripts. -/
theorem C6_empty_crossing_stats_witness :
    (year_stn_stats_hw [] 30 3).isSome = true ∧
      (year_stn_stats_cw [] (-15) 3).isSome = true ∧
      year_stn_stats_hw [] 30 3 = some (0, 0, 0, 0) ∧
      year_stn_stats_cw [] (-15) 3 = some (0, 0, 0, 0) :=
  ⟨(C6_empty_crossing_stats [] 30 3 (by decide)).1,
   (C6_empty_crossing_stats [] (-15) 3 (by decide)).2.1,
   (C6_empty_crossing_stats [] 30 3 (by decide)).2.2.1 rfl,
   (C6_empty_crossing_stats [] (-15) 3 (by decide)).2.2.2 rfl⟩

/-- C3: the two source variants disagree on the total-days statistic — for
every input the heatwave variant's `n_days` is the sum of all episode
lengths (bridged filler days included) while the coldwave variant's
`n_days` is the count of individually-crossing indices, and the remaining
three statistics agree whenever the two comparators select the same
crossing set; the concrete bridged input `[32, 31, 29, 33, 34]` (heat,
threshold 30) against `[-16, -17, -14, -18, -19]` (cold, threshold −15)
selects identical crossing sets yet yields `n_days = 5` versus
`n_days = 4` with equal `n_hws`, `max_dur` and `n_days_hw`. -/
theorem C3_total_days_conventions_differ :
    (∀ (vh vc : List Int) (thh thc : Int) (m : Nat),
        crossingIdx vh (fun v => decide (thh ≤ v)) =
          crossingIdx vc (fun v => decide (v ≤ thc)) →
        ∃ nh md ndh,
          year_stn_stats_hw vh thh m =
            some ((durationsOf (crossingIdx vh (fun v => decide (thh ≤ v)))).sum,
              nh, md, ndh) ∧
          year_stn_stats_cw vc thc m =
            some ((crossingIdx vc (fun v => decide (v ≤ thc))).length,
              nh, md, ndh)) ∧
      (year_stn_stats_hw [32, 31, 29, 33, 34] 30 3 = some (5, 1, 5, 5) ∧
        year_stn_stats_cw [-16, -17, -14, -18, -19] (-15) 3 = some (4, 1, 5, 5) ∧
        crossingIdx [32, 31, 29, 33, 34] (fun v => decide ((30 : Int) ≤ v)) =
          crossingIdx [-16, -17, -14, -18, -19] (fun v => decide (v ≤ (-15 : Int))) ∧
        (5 : Nat) ≠ 4) := by
  constructor
  · intro vh vc thh thc m hcr
    rw [year_stn_stats_hw_eq, year_stn_stats_cw_eq]
    have hd2 : durationsOf (crossingIdx vc (fun v => decide (v ≤ thc))) =
        durationsOf (crossingIdx vh (fun v => decide (thh ≤ v))) := by
      rw [hcr]
    refine ⟨(statsHWt vh thh m).2.1, (statsHWt vh thh m).2.2.1,
      (statsHWt vh thh m).2.2.2, rfl, ?_⟩
    simp only [statsCWt, statsHWt, hd2]
  · exact ⟨by decide, by decide, by decide, by decide⟩

/-- Witness for C3's conditional part at the concrete bridged pair. -/
theorem C3_total_days_conventions_differ_witness :
    ∃ nh md ndh,
      year_stn_stats_hw [32, 31, 29, 33, 34] 30 3 =
        some ((durationsOf (crossingIdx [32, 31, 29, 33, 34]
          (fun v => decide ((30 : Int) ≤ v)))).sum, nh, md, ndh) ∧
      year_stn_stats_cw [-16, -17, -14, -18, -19] (-15) 3 =
        some ((crossingIdx [-16, -17, -14, -18, -19]
          (fun v => decide (v ≤ (-15 : Int)))).length, nh, md, ndh) :=
  C3_total_days_conventions_differ.1 [32, 31, 29, 33, 34] [-16, -17, -14, -18, -19]
    30 (-15) 3 (by decide)

/-- C7: the qualifying-episode count `n_hws` equals the number of episodes
whose length is at least `min_duration`, and `n_days_hw` equals the sum of
the lengths of exactly those qualifying episodes; at the boundary, a
crossing run of length exactly 3 qualifies at `min_duration = 3` while one
of length 2 does not. -/
theorem C7_qualifying_episode_stats :
    (∀ (vals : List Int) (th : Int) (m : Nat),
        year_stn_stats_hw vals th m =
          some ((durationsOf (crossingIdx vals (fun v => decide (th ≤ v)))).sum,
            ((groupEpisodes (crossingIdx vals (fun v => decide (th ≤ v)))).filter
              (fun e => decide (m ≤ e.length))).length,
            (durationsOf (crossingIdx vals (fun v => decide (th ≤ v)))).foldl Nat.max 0,
            (((groupEpisodes (crossingIdx vals (fun v => decide (th ≤ v)))).filter
              (fun e => decide (m ≤ e.length))).map List.length).sum)) ∧
      year_stn_stats_hw [31, 31, 31] 30 3 = some (3, 1, 3, 3) ∧
      year_stn_stats_hw [31, 31] 30 3 = some (2, 0, 2, 0) := by
  refine ⟨?_, by decide, by decide⟩
  intro vals th m
  rw [year_stn_stats_hw_eq]
  have hf := filter_length_map m (groupEpisodes (crossingIdx vals (fun v => decide (th ≤ v))))
  simp only [statsHWt, durationsOf]
  rw [hf]
  simp [List.length_map]

/-- C9: raising `min_duration` never increases the qualifying-episode count
`n_hws` or the days-in-qualifying-episodes `n_days_hw`, in either source
variant. -/
theorem C9_min_duration_monotone :
    (∀ (vals : List Int) (th : Int) (m1 m2 : Nat), m1 ≤ m2 →
        ∀ nd1 nh1 md1 ndh1 nd2 nh2 md2 ndh2,
          year_stn_stats_hw vals th m1 = some (nd1, nh1, md1, ndh1) →
          year_stn_stats_hw vals th m2 = some (nd2, nh2, md2, ndh2) →
          nh2 ≤ nh1 ∧ ndh2 ≤ ndh1) ∧
      (∀ (vals : List Int) (th : Int) (m1 m2 : Nat), m1 ≤ m2 →
        ∀ nd1 nh1 md1 ndh1 nd2 nh2 md2 ndh2,
          year_stn_stats_cw vals th m1 = some (nd1, nh1, md1, ndh1) →
          year_stn_stats_cw vals th m2 = some (nd2, nh2, md2, ndh2) →
          nh2 ≤ nh1 ∧ ndh2 ≤ ndh1) := by
  constructor
  · intro vals th m1 m2 hm nd1 nh1 md1 ndh1 nd2 nh2 md2 ndh2 h1 h2
    rw [year_stn_stats_hw_eq] at h1 h2
    simp only [statsHWt, Option.some.injEq, Prod.mk.injEq] at h1 h2
    obtain ⟨-, h1b, -, h1d⟩ := h1
    obtain ⟨-, h2b, -, h2d⟩ := h2
    constructor
    · rw [← h1b, ← h2b]
      exact (filter_ge_sublist m1 m2 hm _).length_le
    · rw [← h1d, ← h2d]
      exact sublist_sum_le (filter_ge_sublist m1 m2 hm _)
  · intro vals th m1 m2 hm nd1 nh1 md1 ndh1 nd2 nh2 md2 ndh2 h1 h2
    rw [year_stn_stats_cw_eq] at h1 h2
    simp only [statsCWt, Option.some.injEq, Prod.mk.injEq] at h1 h2
    obtain ⟨-, h1b, -, h1d⟩ := h1
    obtain ⟨-, h2b, -, h2d⟩ := h2
    constructor
    · rw [← h1b, ← h2b]
      exact (filter_ge_sublist m1 m2 hm _).length_le
    · rw [← h1d, ← h2d]
      exact sublist_sum_le (filter_ge_sublist m1 m2 hm _)

/-- Witness for C9 at `min_duration` 3 versus 4 on a length-3 crossing run
(both variants): the counts drop from `(1, 3)` to `(0, 0)`. -/
theorem C9_min_duration_monotone_witness :
    ((0 : Nat) ≤ 1 ∧ (0 : Nat) ≤ 3) ∧ ((0 : Nat) ≤ 1 ∧ (0 : Nat) ≤ 3) :=
  ⟨C9_min_duration_monotone.1 [31, 31, 31] 30 3 4 (by decide)
     3 1 3 3 3 0 3 0 (by decide) (by decide),
   C9_min_duration_monotone.2 [-20, -20, -20] (-15) 3 4 (by decide)
     3 1 3 3 3 0 3 0 (by decide) (by decide)⟩

lemma getD_map_map (sf : List Int → Nat × Nat × Nat × Nat)
    (g : Nat × Nat × Nat × Nat → Nat) (cols : List (List Int)) (i : Nat)
    (hi : i < cols.length) :
    ((cols.map sf).map g).getD i 0 = g (sf (cols.getD i [])) := by
  have hlm : i < (cols.map sf).length := by simpa using hi
  rw [getD_map g (cols.map sf) i hlm (0, 0, 0, 0) 0,
    getD_map sf cols i hi [] (0, 0, 0, 0)]

lemma getD_map_map_map (sf : List Int → Nat × Nat × Nat × Nat)
    (g : Nat × Nat × Nat × Nat → Nat) (h : Nat → Nat) (cols : List (List Int)) (i : Nat)
    (hi : i < cols.length) :
    (((cols.map sf).map g).map h).getD i 0 = h (g (sf (cols.getD i []))) := by
  have hl2 : i < ((cols.map sf).map g).length := by simpa using hi
  rw [getD_map h ((cols.map sf).map g) i hl2 0 0, getD_map_map sf g cols i hi]

/-- C8: in the tables assembled by the aggregator, every max-duration cell
whose computed value is below `hw_min_days` is reported as 0 while cells at
or above it keep their computed value, and the other three tables carry the
per-cell statistics unaltered — in both source variants. -/
theorem C8_max_duration_postprocessing :
    (∀ (cols : List (List Int)) (th : Int) (i : Nat), i < cols.length →
        ∀ nd nh md ndh,
          year_stn_stats_hw (cols.getD i []) th hw_min_days = some (nd, nh, md, ndh) →
          ∃ D H M DH, process_df_hw cols th = some (D, H, M, DH) ∧
            D.getD i 0 = nd ∧ H.getD i 0 = nh ∧
            M.getD i 0 = (if md < hw_min_days then 0 else md) ∧
            DH.getD i 0 = ndh) ∧
      (∀ (cols : List (List Int)) (th : Int) (i : Nat), i < cols.length →
        ∀ nd nh md ndh,
          year_stn_stats_cw (cols.getD i []) th hw_min_days = some (nd, nh, md, ndh) →
          ∃ D H M DH, process_df_cw cols th = some (D, H, M, DH) ∧
            D.getD i 0 = nd ∧ H.getD i 0 = nh ∧
            M.getD i 0 = (if md < hw_min_days then 0 else md) ∧
            DH.getD i 0 = ndh) := by
  constructor
  · intro cols th i hi nd nh md ndh hstats
    have htab := statsTable_eq (fun v => year_stn_stats_hw v th hw_min_days)
      (fun v => statsHWt v th hw_min_days)
      (fun c => year_stn_stats_hw_eq c th hw_min_days) cols
    have hproc : process_df_hw cols th =
        some ((cols.map (fun v => statsHWt v th hw_min_days)).map (fun s => s.1),
          (cols.map (fun v => statsHWt v th hw_min_days)).map (fun s => s.2.1),
          zeroShortMax hw_min_days
            ((cols.map (fun v => statsHWt v th hw_min_days)).map (fun s => s.2.2.1)),
          (cols.map (fun v => statsHWt v th hw_min_days)).map (fun s => s.2.2.2)) := by
      simp only [process_df_hw, htab, Option.map_some']
    rw [year_stn_stats_hw_eq] at hstats
    have hst := Option.some.inj hstats
    refine ⟨_, _, _, _, hproc, ?_, ?_, ?_, ?_⟩
    · rw [getD_map_map _ (fun s => s.1) cols i hi, hst]
    · rw [getD_map_map _ (fun s => s.2.1) cols i hi, hst]
    · rw [zeroShortMax,
        getD_map_map_map _ (fun s => s.2.2.1) (fun v => if v < hw_min_days then 0 else v)
          cols i hi, hst]
    · rw [getD_map_map _ (fun s => s.2.2.2) cols i hi, hst]
  · intro cols th i hi nd nh md ndh hstats
    have htab := statsTable_eq (fun v => year_stn_stats_cw v th hw_min_days)
      (fun v => statsCWt v th hw_min_days)
      (fun c => year_stn_stats_cw_eq c th hw_min_days) cols
    have hproc : process_df_cw cols th =
        some ((cols.map (fun v => statsCWt v th hw_min_days)).map (fun s => s.1),
          (cols.map (fun v => statsCWt v th hw_min_days)).map (fun s => s.2.1),
          zeroShortMax hw_min_days
            ((cols.map (fun v => statsCWt v th hw_min_days)).map (fun s => s.2.2.1)),
          (cols.map (fun v => statsCWt v th hw_min_days)).map (fun s => s.2.2.2)) := by
      simp only [process_df_cw, htab, Option.map_some']
    rw [year_stn_stats_cw_eq] at hstats
    have hst := Option.some.inj hstats
    refine ⟨_, _, _, _, hproc, ?_, ?_, ?_, ?_⟩
    · rw [getD_map_map _ (fun s => s.1) cols i hi, hst]
    · rw [getD_map_map _ (fun s => s.2.1) cols i hi, hst]
    · rw [zeroShortMax,
        getD_map_map_map _ (fun s => s.2.2.1) (fun v => if v < hw_min_days then 0 else v)
          cols i hi, hst]
    · rw [getD_map_map _ (fun s => s.2.2.2) cols i hi, hst]

/-- Witness for C8 on single-column tables holding a length-2 run (below the
minimum duration 3): the max-duration cell is masked to 0, the other cells
keep their computed values. -/
theorem C8_max_duration_postprocessing_witness :
    (∃ D H M DH, process_df_hw [[31, 31]] 30 = some (D, H, M, DH) ∧
        D.getD 0 0 = 2 ∧ H.getD 0 0 = 0 ∧
        M.getD 0 0 = (if 2 < hw_min_days then 0 else 2) ∧ DH.getD 0 0 = 0) ∧
      (∃ D H M DH, process_df_cw [[-20, -20]] (-15) = some (D, H, M, DH) ∧
        D.getD 0 0 = 2 ∧ H.getD 0 0 = 0 ∧
        M.getD 0 0 = (if 2 < hw_min_days then 0 else 2) ∧ DH.getD 0 0 = 0) :=
  ⟨C8_max_duration_postprocessing.1 [[31, 31]] 30 0 (by decide) 2 0 2 0 (by decide),
   C8_max_duration_postprocessing.2 [[-20, -20]] (-15) 0 (by decide) 2 0 2 0 (by decide)⟩

/-- C4 counterexample: a per-day threshold series of length 3 resolved
against a day sequence of length 5 — a mismatch other than the single
extra-entry leap-day case — is passed through to the comparison unchanged
and without any error, contradicting the claimed
`ThresholdAlignmentError`. -/
theorem C4_alignment_counterexample :
    alignThreshold [0, 0, 0] 5 = some [0, 0, 0] ∧ ([0, 0, 0] : List Int).length ≠ 5 :=
  ⟨by decide, by decide⟩

/-- C4 amended: when the resolved threshold series is longer by exactly one
entry (and has more than 151 entries) the entry at position 151 is dropped,
restoring alignment; but the same single-entry drop fires for any strictly
longer series, and no length mismatch raises an error — a series that is
not longer is passed through unchanged. -/
theorem C4_alignment_amended (th : List Int) (n : Nat) :
    (th.length = n + 1 → 151 < th.length →
      alignThreshold th n = some (th.eraseIdx 151) ∧ (th.eraseIdx 151).length = n) ∧
      (th.length ≤ n → alignThreshold th n = some th) ∧
      (n < th.length → 151 < th.length →
        alignThreshold th n = some (th.eraseIdx 151)) := by
  refine ⟨?_, ?_, ?_⟩
  · intro hlen h151
    have hlt : n < th.length := by omega
    constructor
    · simp [alignThreshold, hlt, h151]
    · rw [List.length_eraseIdx th 151, if_pos h151]
      omega
  · intro hle
    have hnlt : ¬n < th.length := by omega
    simp [alignThreshold, hnlt]
  · intro hlt h151
    simp [alignThreshold, hlt, h151]

/-- Witness for C4's amended claim at a 366-row threshold table against a
365-day year: the Feb-29 row at position 151 is dropped and the result
aligns. -/
theorem C4_alignment_amended_witness :
    ((List.range 366).map Int.ofNat).length = 365 + 1 ∧
      151 < ((List.range 366).map Int.ofNat).length ∧
      alignThreshold ((List.range 366).map Int.ofNat) 365 =
        some (((List.range 366).map Int.ofNat).eraseIdx 151) ∧
      (((List.range 366).map Int.ofNat).eraseIdx 151).length = 365 :=
  have h1 : ((List.range 366).map Int.ofNat).length = 365 + 1 := by simp
  have h2 : 151 < ((List.range 366).map Int.ofNat).length := by simp
  have h := C4_alignment_amended ((List.range 366).map Int.ofNat) 365
  ⟨h1, h2, (h.1 h1 h2).1, (h.1 h1 h2).2⟩

/-- C5 counterexample: with input year labels `["2023", "garbage99"]`, the
coldwave aggregator iterates only over the malformed label `"garbage99"`
and skips the well-formed 4-digit label `"2023"`, while the heatwave
aggregator iterates over both without any filtering. -/
theorem C5_year_selection_counterexample :
    selectYears_cw ["2023", "garbage99"] = ["garbage99"] ∧
      selectYears_hw ["2023", "garbage99"] = ["2023", "garbage99"] ∧
      ("2023" : String).length = 4 :=
  ⟨by decide, by decide, by decide⟩

/-- C5 amended: the heatwave aggregator iterates over every distinct year
label of the input with no well-formedness filtering, and the coldwave
aggregator iterates exactly over the distinct year labels whose length
exceeds 4 characters (so 4-character labels are excluded there). -/
theorem C5_year_selection_amended (years : List String) (y : String) :
    (y ∈ selectYears_hw years ↔ y ∈ years) ∧
      (y ∈ selectYears_cw years ↔ y ∈ years ∧ 4 < y.length) := by
  constructor
  · exact mem_uniqueFirst years y
  · rw [selectYears_cw, List.mem_filter, mem_uniqueFirst]
    constructor
    · rintro ⟨h1, h2⟩
      exact ⟨h1, by simpa using h2⟩
    · rintro ⟨h1, h2⟩
      exact ⟨h1, by simpa using h2⟩
